import Mathlib

/-!
Verification development for the `wasmtime-chaining` event-chain core:
the append-only hash chain (`src/crates/wasmtime/src/runtime/chain/chain.rs`)
and the serializable value mirror (`src/crates/wasmtime/src/runtime/chain/values.rs`).

Machine integers are modelled as `Nat`/`Int` with explicit reduction
modulo `2 ^ 64` where 64-bit overflow matters.  Rust computations that can
`panic!` are modelled with the `PanicOr` outcome type, so that a panic is
distinguishable from a propagated `Result` error.
-/

/-- Outcome of a Rust computation that can panic: either an unrecoverable
panic carrying its message, or a normally returned value. -/
inductive PanicOr (α : Type) where
  | panicked (msg : String)
  | ok (a : α)
deriving DecidableEq

/-- Models `std::collections::hash_map::DefaultHasher`: the hasher receives a
stream of written machine words and `finish` produces a 64-bit digest.  The
repository's properties depend only on the digest being a deterministic
function of the written stream, so the concrete mixing is modelled by an
FNV-1a-style fold reduced modulo `2 ^ 64`. -/
def hasherFinish (writes : List Nat) : Nat :=
  writes.foldl (fun h w => ((h ^^^ w) * 1099511628211) % 2 ^ 64) 14695981039346656037

/-- Stream of words written when hashing a Rust `String`: the character
codes of the text followed by a `0xff` terminator (byte-level detail of the
std `Hash for str` impl, modelled at character granularity). -/
def stringWrites (s : String) : List Nat :=
  s.data.map Char.toNat ++ [255]

/-- Stream of words written when hashing an `Option<u64>`: the derived impl
hashes the discriminant and then the payload, if any. -/
def optionU64Writes : Option Nat → List Nat
  | none => [0]
  | some h => [1, h % 2 ^ 64]

/-- Stream of words written when hashing a `Vec<u8>`: the length prefix
followed by the bytes. -/
def bytesWrites (data : List Nat) : List Nat :=
  data.length :: data

/-- `Event` (chain.rs): a type tag, an optional 64-bit parent hash, and an
opaque byte payload.  Bytes and hashes are modelled as `Nat`. -/
structure Event where
  type_ : String
  parent : Option Nat
  data : List Nat
deriving DecidableEq

/-- `Event::new`: constructs an Event with `parent = None`. -/
def Event.new (type_ : String) (data : List Nat) : Event :=
  { type_ := type_, parent := none, data := data }

/-- The word stream the derived `Hash for Event` feeds to the hasher:
fields in declaration order (`type_`, `parent`, `data`). -/
def Event.hashWrites (e : Event) : List Nat :=
  stringWrites e.type_ ++ optionU64Writes e.parent ++ bytesWrites e.data

/-- `Event::calculate_hash`: hash the event's fields into a fresh
`DefaultHasher` and take the 64-bit digest. -/
def Event.calculate_hash (e : Event) : Nat :=
  hasherFinish e.hashWrites

/-- `MetaEvent` (chain.rs): an Event paired with its computed hash. -/
structure MetaEvent where
  hash : Nat
  event : Event
deriving DecidableEq

/-- `Chain` (chain.rs): an ordered sequence of MetaEvents. -/
structure Chain where
  events : List MetaEvent
deriving DecidableEq

/-- `Chain::new`: the empty chain. -/
def Chain.new : Chain :=
  { events := [] }

/-- `Chain::head`: the hash of the last appended MetaEvent, if any. -/
def Chain.head (c : Chain) : Option Nat :=
  c.events.getLast?.map (fun node => node.hash)

/-- `Chain::add`: computes the event's hash first, then overwrites the
event's `parent` with the current head's hash, pushes the resulting
MetaEvent, and returns the computed hash.  The mutation of `&mut self` is
modelled by returning the updated chain next to the returned hash. -/
def Chain.add (c : Chain) (event : Event) : Chain × Nat :=
  let hash := event.calculate_hash
  let parent_hash := c.events.getLast?.map (fun last => last.hash)
  let event' := { event with parent := parent_hash }
  let node : MetaEvent := { event := event', hash := hash }
  ({ events := c.events ++ [node] }, hash)

/-- `Chain::get_event_by_hash`: linear search for the first stored entry
whose hash equals the argument. -/
def Chain.get_event_by_hash (c : Chain) (hash : Nat) : Option MetaEvent :=
  c.events.find? (fun node => node.hash == hash)

/-- `Chain::get_parent`: resolve the entry for `hash`, read its event's
`parent` field, and if present resolve that hash by the same lookup;
either step failing short-circuits to `none`. -/
def Chain.get_parent (c : Chain) (hash : Nat) : Option MetaEvent :=
  ((c.events.find? (fun node => node.hash == hash)).bind
      (fun node => node.event.parent)).bind
    (fun parent_hash => c.get_event_by_hash parent_hash)

/-- Append a whole list of events in order, one `add` call each. -/
def Chain.addAll : Chain → List Event → Chain
  | c, [] => c
  | c, e :: es => ((c.add e).1).addAll es

/-- The MetaEvents produced by appending `es` when the head hash before the
first append is `p`: entry `i` stores event `i` with its parent overwritten
by the hash of entry `i - 1` (or `p` for the first). -/
def buildEvents : List Event → Option Nat → List MetaEvent
  | [], _ => []
  | e :: es, p =>
    { hash := e.calculate_hash, event := { e with parent := p } } ::
      buildEvents es (some e.calculate_hash)

/-- The parent hash assigned at append time to the `i`-th event of `es`
when the head before the first append was `p`. -/
def prevHash (es : List Event) (p : Option Nat) : Nat → Option Nat
  | 0 => p
  | i + 1 => (es[i]?).bind (fun e => some e.calculate_hash)

theorem add_events (c : Chain) (e : Event) :
    (c.add e).1.events =
      c.events ++ [{ hash := e.calculate_hash, event := { e with parent := c.head } }] := by
  simp [Chain.add, Chain.head]

theorem add_snd (c : Chain) (e : Event) : (c.add e).2 = e.calculate_hash := rfl

theorem add_head (c : Chain) (e : Event) :
    (c.add e).1.head = some e.calculate_hash := by
  simp [Chain.add, Chain.head]

theorem addAll_events : ∀ (es : List Event) (c : Chain),
    (c.addAll es).events = c.events ++ buildEvents es c.head
  | [], c => by simp [Chain.addAll, buildEvents]
  | e :: es, c => by
    rw [Chain.addAll, addAll_events es]
    rw [add_events, add_head, buildEvents]
    simp

theorem addAll_concat (es : List Event) (e : Event) (c : Chain) :
    c.addAll (es ++ [e]) = ((c.addAll es).add e).1 := by
  induction es generalizing c with
  | nil => simp [Chain.addAll]
  | cons e' es ih => simp [Chain.addAll, ih]

theorem prevHash_cons (e : Event) (es : List Event) (p : Option Nat) :
    ∀ i, prevHash es (some e.calculate_hash) i = prevHash (e :: es) p (i + 1)
  | 0 => by simp [prevHash]
  | i + 1 => by simp [prevHash]

theorem buildEvents_getElem? : ∀ (es : List Event) (p : Option Nat) (i : Nat),
    (buildEvents es p)[i]? =
      (es[i]?).map
        (fun e => { hash := e.calculate_hash, event := { e with parent := prevHash es p i } })
  | [], _, _ => by simp [buildEvents]
  | e :: es, p, 0 => by simp [buildEvents, prevHash]
  | e :: es, p, i + 1 => by
    rw [buildEvents]
    simp only [List.getElem?_cons_succ]
    rw [buildEvents_getElem? es (some e.calculate_hash) i]
    rw [prevHash_cons e es p i]

theorem buildEvents_map_hash : ∀ (es : List Event) (p : Option Nat),
    (buildEvents es p).map MetaEvent.hash = es.map Event.calculate_hash
  | [], _ => rfl
  | e :: es, p => by
    rw [buildEvents]
    simp only [List.map_cons]
    rw [buildEvents_map_hash es]

theorem find?_nodup_getElem? :
    ∀ (l : List MetaEvent) (i : Nat) (m : MetaEvent),
      (l.map MetaEvent.hash).Nodup → l[i]? = some m →
      l.find? (fun node => node.hash == m.hash) = some m
  | [], i, m, _, hget => by simp at hget
  | x :: xs, 0, m, hnd, hget => by
    simp only [List.getElem?_cons_zero, Option.some.injEq] at hget
    subst hget
    simp [List.find?]
  | x :: xs, i + 1, m, hnd, hget => by
    simp only [List.getElem?_cons_succ] at hget
    simp only [List.map_cons, List.nodup_cons] at hnd
    have hmem : m ∈ xs := List.getElem?_mem hget
    have hne : x.hash ≠ m.hash := by
      intro h
      exact hnd.1 (h ▸ List.mem_map_of_mem MetaEvent.hash hmem)
    rw [List.find?_cons_of_neg _ (by simpa using hne)]
    exact find?_nodup_getElem? xs i m hnd.2 hget

theorem find?_earliest {α : Type} (p : α → Bool) :
    ∀ (l : List α) (a : α), l.find? p = some a →
      p a = true ∧
        ∃ i : Nat, l[i]? = some a ∧ ∀ j : Nat, j < i → ∀ b, l[j]? = some b → p b = false
  | [], a, h => by simp at h
  | x :: xs, a, h => by
    by_cases hx : p x = true
    · rw [List.find?_cons_of_pos _ hx] at h
      obtain rfl : x = a := by simpa using h
      exact ⟨hx, 0, by simp, fun j hj => by omega⟩
    · have hx' : p x = false := by simpa using hx
      rw [List.find?_cons_of_neg _ (by simp [hx'])] at h
      obtain ⟨hpa, i, hi, hmin⟩ := find?_earliest p xs a h
      refine ⟨hpa, i + 1, by simpa using hi, ?_⟩
      intro j hj b hb
      match j with
      | 0 =>
        simp only [List.getElem?_cons_zero, Option.some.injEq] at hb
        exact hb ▸ hx'
      | j + 1 =>
        simp only [List.getElem?_cons_succ] at hb
        exact hmin j (by omega) b hb

/-- Structured document tree for the Chain wire text.  Models the value
space of the external `serde_json` collaborator: the Lower path renders a
`Json` tree of the Chain and the Lift path parses it back; the textual
rendering itself and the string lowering primitive are external
collaborators assumed lossless. -/
inductive Json where
  | null
  | num (n : Nat)
  | str (s : String)
  | arr (xs : List Json)
  | obj (fields : List (String × Json))

/-- Derived serde encoding of the `parent` field: `None` renders as null,
`Some h` as the number. -/
def encodeParent : Option Nat → Json
  | none => Json.null
  | some h => Json.num h

/-- Derived serde encoding of the `data` bytes: an array of numbers. -/
def encodeData (data : List Nat) : Json :=
  Json.arr (data.map Json.num)

/-- Derived serde encoding of an Event: an object with the fields
`type_`, `parent`, `data` in declaration order. -/
def encodeEvent (e : Event) : Json :=
  Json.obj [("type_", Json.str e.type_), ("parent", encodeParent e.parent),
    ("data", encodeData e.data)]

/-- Derived serde encoding of a MetaEvent: an object with the fields
`hash` and `event` in declaration order. -/
def encodeMetaEvent (m : MetaEvent) : Json :=
  Json.obj [("hash", Json.num m.hash), ("event", encodeEvent m.event)]

/-- Derived serde encoding of a Chain (`serde_json::to_string` up to the
external text rendering): one top-level field `events` holding the entry
array in order. -/
def encodeChain (c : Chain) : Json :=
  Json.obj [("events", Json.arr (c.events.map encodeMetaEvent))]

/-- Derived serde decoding of a `parent` field. -/
def decodeParent : Json → Option (Option Nat)
  | Json.null => some none
  | Json.num h => some (some h)
  | _ => none

/-- Derived serde decoding of one byte. -/
def decodeByte : Json → Option Nat
  | Json.num n => some n
  | _ => none

/-- Decode a sequence element by element; any malformed element fails the
whole decode. -/
def decodeList {α : Type} (dec : Json → Option α) : List Json → Option (List α)
  | [] => some []
  | j :: js => (dec j).bind (fun x => (decodeList dec js).map (fun xs => x :: xs))

/-- Derived serde decoding of the `data` bytes; any malformed element
fails the whole decode. -/
def decodeData : Json → Option (List Nat)
  | Json.arr xs => decodeList decodeByte xs
  | _ => none

/-- Derived serde decoding of an Event from its canonical object shape;
any malformed field fails the whole decode. -/
def decodeEvent : Json → Option Event
  | Json.obj [("type_", Json.str t), ("parent", p), ("data", d)] =>
    (decodeParent p).bind (fun pv => (decodeData d).map (fun dv => ⟨t, pv, dv⟩))
  | _ => none

/-- Derived serde decoding of a MetaEvent from its canonical object shape. -/
def decodeMetaEvent : Json → Option MetaEvent
  | Json.obj [("hash", Json.num h), ("event", ev)] =>
    (decodeEvent ev).map (fun e => ⟨h, e⟩)
  | _ => none

/-- Derived serde decoding of a Chain (`serde_json::from_str` after the
external text parsing): any malformed entry fails the whole decode, so no
partially constructed Chain is produced. -/
def decodeChain : Json → Option Chain
  | Json.obj [("events", Json.arr xs)] => (decodeList decodeMetaEvent xs).map Chain.mk
  | _ => none

theorem decodeParent_encodeParent : ∀ p : Option Nat, decodeParent (encodeParent p) = some p
  | none => rfl
  | some _ => rfl

theorem decodeData_encodeData : ∀ data : List Nat, decodeData (encodeData data) = some data := by
  intro data
  simp only [decodeData, encodeData]
  induction data with
  | nil => rfl
  | cons b bs ih => simp [decodeList, ih, decodeByte]

theorem decodeEvent_encodeEvent (e : Event) : decodeEvent (encodeEvent e) = some e := by
  simp [encodeEvent, decodeEvent, decodeParent_encodeParent, decodeData_encodeData]

theorem decodeMetaEvent_encodeMetaEvent (m : MetaEvent) :
    decodeMetaEvent (encodeMetaEvent m) = some m := by
  simp [encodeMetaEvent, decodeMetaEvent, decodeEvent_encodeEvent]

theorem decodeChain_encodeChain (c : Chain) : decodeChain (encodeChain c) = some c := by
  simp only [encodeChain, decodeChain]
  have h : ∀ l : List MetaEvent, decodeList decodeMetaEvent (l.map encodeMetaEvent) = some l := by
    intro l
    induction l with
    | nil => rfl
    | cons m ms ih => simp [decodeList, decodeMetaEvent_encodeMetaEvent, ih]
  simp [h]

/-- Modelled from the spec: the boundary's declared interface types
(`InterfaceType`), which live in the boundary runtime rather than under
the chain sources.  The adapter's type-check only distinguishes the
primitive string type from every other declared type, so composite
payloads are omitted; `debugName` renders the Rust `Debug` name reported
in the failure message. -/
inductive InterfaceType where
  | bool
  | s8
  | u8
  | s16
  | u16
  | s32
  | u32
  | s64
  | u64
  | float32
  | float64
  | char
  | string
  | record
  | variant
  | list
  | tuple
  | flags
  | enum
  | option
  | result
  | own
  | borrow
deriving DecidableEq

/-- Rust `Debug` rendering of an interface type, as interpolated into the
type-check failure message. -/
def InterfaceType.debugName : InterfaceType → String
  | .bool => "Bool"
  | .s8 => "S8"
  | .u8 => "U8"
  | .s16 => "S16"
  | .u16 => "U16"
  | .s32 => "S32"
  | .u32 => "U32"
  | .s64 => "S64"
  | .u64 => "U64"
  | .float32 => "Float32"
  | .float64 => "Float64"
  | .char => "Char"
  | .string => "String"
  | .record => "Record"
  | .variant => "Variant"
  | .list => "List"
  | .tuple => "Tuple"
  | .flags => "Flags"
  | .enum => "Enum"
  | .option => "Option"
  | .result => "Result"
  | .own => "Own"
  | .borrow => "Borrow"

/-- `Chain::typecheck` (the `ComponentType` impl in chain.rs): accept the
primitive string interface type, and fail with the bail message for every
other declared type. -/
def Chain.typecheck (ty : InterfaceType) : Except String Unit :=
  match ty with
  | InterfaceType.string => Except.ok ()
  | other => Except.error ("expected string found " ++ other.debugName)

/-- Modelled from the spec: an opaque resource handle (`ResourceAny`),
owned by the boundary runtime rather than the chain sources; the mirror
treats it as fully opaque, so only an abstract identity is kept. -/
structure ResourceAny where
  rep : Nat
deriving DecidableEq

/-- Modelled from the spec: the boundary's dynamic value type (`Val`),
which lives in the boundary runtime rather than under the chain sources;
its cases are exactly those matched exhaustively by
`SerializableVal::from_val` (values.rs).  Floats are carried as their raw
bit patterns (a `Nat` below `2 ^ 32` or `2 ^ 64`), which is the granularity
at which the structural hash inspects them. -/
inductive Val where
  | bool (b : Bool)
  | s8 (n : Int)
  | u8 (n : Nat)
  | s16 (n : Int)
  | u16 (n : Nat)
  | s32 (n : Int)
  | u32 (n : Nat)
  | s64 (n : Int)
  | u64 (n : Nat)
  | float32 (bits : Nat)
  | float64 (bits : Nat)
  | char (c : Char)
  | string (s : String)
  | list (l : List Val)
  | record (r : List (String × Val))
  | tuple (t : List Val)
  | variant (name : String) (payload : Option Val)
  | enum (name : String)
  | option (o : Option Val)
  | result (r : Except (Option Val) (Option Val))
  | flags (f : List String)
  | resource (r : ResourceAny)

/-- `SerializableVal` (values.rs): the tagged-variant mirror of `Val`,
variant for variant, in the same declaration order. -/
inductive SerializableVal where
  | bool (b : Bool)
  | s8 (n : Int)
  | u8 (n : Nat)
  | s16 (n : Int)
  | u16 (n : Nat)
  | s32 (n : Int)
  | u32 (n : Nat)
  | s64 (n : Int)
  | u64 (n : Nat)
  | float32 (bits : Nat)
  | float64 (bits : Nat)
  | char (c : Char)
  | string (s : String)
  | list (l : List SerializableVal)
  | record (r : List (String × SerializableVal))
  | tuple (t : List SerializableVal)
  | variant (name : String) (payload : Option SerializableVal)
  | enum (name : String)
  | option (o : Option SerializableVal)
  | result (r : Except (Option SerializableVal) (Option SerializableVal))
  | flags (f : List String)
  | resource (r : ResourceAny)

/-- The fixed message of the `panic!` in the Resource arms of
`from_val` and of `Hash for SerializableVal`. -/
def panicMsg : String :=
  "AHHHHHH: Resource serialization not yet implemented"

mutual
/-- `SerializableVal::from_val` (values.rs): recursively maps each
dynamic-value case onto its mirror variant; the Resource arm is an
unconditional panic, and sub-value failures abort the whole conversion.
The `anyhow::Result` error side is modelled as a `String`. -/
def SerializableVal.from_val : Val → PanicOr (Except String SerializableVal)
  | Val.bool b => .ok (.ok (.bool b))
  | Val.s8 n => .ok (.ok (.s8 n))
  | Val.u8 n => .ok (.ok (.u8 n))
  | Val.s16 n => .ok (.ok (.s16 n))
  | Val.u16 n => .ok (.ok (.u16 n))
  | Val.s32 n => .ok (.ok (.s32 n))
  | Val.u32 n => .ok (.ok (.u32 n))
  | Val.s64 n => .ok (.ok (.s64 n))
  | Val.u64 n => .ok (.ok (.u64 n))
  | Val.float32 bits => .ok (.ok (.float32 bits))
  | Val.float64 bits => .ok (.ok (.float64 bits))
  | Val.char c => .ok (.ok (.char c))
  | Val.string s => .ok (.ok (.string s))
  | Val.list l =>
    match from_val_list l with
    | .panicked m => .panicked m
    | .ok (.error e) => .ok (.error e)
    | .ok (.ok xs) => .ok (.ok (.list xs))
  | Val.record r =>
    match from_val_fields r with
    | .panicked m => .panicked m
    | .ok (.error e) => .ok (.error e)
    | .ok (.ok xs) => .ok (.ok (.record xs))
  | Val.tuple t =>
    match from_val_list t with
    | .panicked m => .panicked m
    | .ok (.error e) => .ok (.error e)
    | .ok (.ok xs) => .ok (.ok (.tuple xs))
  | Val.variant name payload =>
    match from_val_opt payload with
    | .panicked m => .panicked m
    | .ok (.error e) => .ok (.error e)
    | .ok (.ok xs) => .ok (.ok (.variant name xs))
  | Val.enum name => .ok (.ok (.enum name))
  | Val.option o =>
    match from_val_opt o with
    | .panicked m => .panicked m
    | .ok (.error e) => .ok (.error e)
    | .ok (.ok xs) => .ok (.ok (.option xs))
  | Val.result (Except.ok o) =>
    match from_val_opt o with
    | .panicked m => .panicked m
    | .ok (.error e) => .ok (.error e)
    | .ok (.ok xs) => .ok (.ok (.result (Except.ok xs)))
  | Val.result (Except.error o) =>
    match from_val_opt o with
    | .panicked m => .panicked m
    | .ok (.error e) => .ok (.error e)
    | .ok (.ok xs) => .ok (.ok (.result (Except.error xs)))
  | Val.flags f => .ok (.ok (.flags f))
  | Val.resource _ => .panicked panicMsg

/-- The `iter().map(from_val).collect::<Result<Vec<_>>>()` idiom used by
the List/Tuple arms: convert the elements in order; the first element
failure aborts the whole conversion with no partial result. -/
def SerializableVal.from_val_list : List Val → PanicOr (Except String (List SerializableVal))
  | [] => .ok (.ok [])
  | v :: vs =>
    match SerializableVal.from_val v with
    | .panicked m => .panicked m
    | .ok (.error e) => .ok (.error e)
    | .ok (.ok x) =>
      match from_val_list vs with
      | .panicked m => .panicked m
      | .ok (.error e) => .ok (.error e)
      | .ok (.ok xs) => .ok (.ok (x :: xs))

/-- The Record arm's field-wise conversion: names are cloned and values
converted recursively, in field order, fail-fast. -/
def SerializableVal.from_val_fields :
    List (String × Val) → PanicOr (Except String (List (String × SerializableVal)))
  | [] => .ok (.ok [])
  | (k, v) :: vs =>
    match SerializableVal.from_val v with
    | .panicked m => .panicked m
    | .ok (.error e) => .ok (.error e)
    | .ok (.ok x) =>
      match from_val_fields vs with
      | .panicked m => .panicked m
      | .ok (.error e) => .ok (.error e)
      | .ok (.ok xs) => .ok (.ok ((k, x) :: xs))

/-- The `map(...).transpose()?` idiom used by the Variant, Option and
Result arms: convert the populated payload, if any, fail-fast. -/
def SerializableVal.from_val_opt :
    Option Val → PanicOr (Except String (Option SerializableVal))
  | none => .ok (.ok none)
  | some v =>
    match SerializableVal.from_val v with
    | .panicked m => .panicked m
    | .ok (.error e) => .ok (.error e)
    | .ok (.ok x) => .ok (.ok (some x))
end

/-- `SerializableVal::from_vals` (values.rs): element-wise conversion of a
sequence, the same `collect::<Result<Vec<_>>>` idiom as the List arm. -/
def SerializableVal.from_vals (vals : List Val) :
    PanicOr (Except String (List SerializableVal)) :=
  SerializableVal.from_val_list vals

/-- IEEE 754 single precision: a 32-bit pattern encodes a NaN exactly when
its exponent bits (bits 23..30) are all ones and its mantissa (bits 0..22)
is non-zero; models `f32::is_nan` on the stored bit pattern. -/
def f32IsNan (bits : Nat) : Bool :=
  (bits / 2 ^ 23) % 2 ^ 8 == 255 && bits % 2 ^ 23 != 0

/-- IEEE 754 single precision: a 32-bit pattern compares equal to `0.0`
exactly when it is positive or negative zero, i.e. all bits but possibly
the sign bit are clear; models the `*f == 0.0` test on the bit pattern. -/
def f32EqZero (bits : Nat) : Bool :=
  bits % 2 ^ 31 == 0

/-- IEEE 754 double precision NaN test on the 64-bit pattern (exponent
bits 52..62 all ones, non-zero mantissa); models `f64::is_nan`. -/
def f64IsNan (bits : Nat) : Bool :=
  (bits / 2 ^ 52) % 2 ^ 11 == 2047 && bits % 2 ^ 52 != 0

/-- IEEE 754 double precision `== 0.0` test on the 64-bit pattern. -/
def f64EqZero (bits : Nat) : Bool :=
  bits % 2 ^ 63 == 0

/-- Discriminant value mixed in first by `Hash for SerializableVal`:
the variant's position in declaration order, modelling
`std::mem::discriminant`. -/
def SerializableVal.discriminant : SerializableVal → Nat
  | .bool _ => 0
  | .s8 _ => 1
  | .u8 _ => 2
  | .s16 _ => 3
  | .u16 _ => 4
  | .s32 _ => 5
  | .u32 _ => 6
  | .s64 _ => 7
  | .u64 _ => 8
  | .float32 _ => 9
  | .float64 _ => 10
  | .char _ => 11
  | .string _ => 12
  | .list _ => 13
  | .record _ => 14
  | .tuple _ => 15
  | .variant _ _ => 16
  | .enum _ => 17
  | .option _ => 18
  | .result _ => 19
  | .flags _ => 20
  | .resource _ => 21

mutual
/-- `Hash for SerializableVal` (values.rs), modelled as the stream of
machine words the impl writes into the hasher: the variant's discriminant
first, then the contents; Float32/Float64 write one canonical word for any
NaN (`u32::MAX` / `u64::MAX`), the word `0` for positive or negative zero,
and the raw bit pattern otherwise; the Resource arm panics.  A digest
taken by any deterministic hasher is a function of this stream. -/
def SerializableVal.hashWrites : SerializableVal → PanicOr (List Nat)
  | .bool b => .ok [0, if b then 1 else 0]
  | .s8 n => .ok [1, (n % (2 ^ 8 : Int)).toNat]
  | .u8 n => .ok [2, n]
  | .s16 n => .ok [3, (n % (2 ^ 16 : Int)).toNat]
  | .u16 n => .ok [4, n]
  | .s32 n => .ok [5, (n % (2 ^ 32 : Int)).toNat]
  | .u32 n => .ok [6, n]
  | .s64 n => .ok [7, (n % (2 ^ 64 : Int)).toNat]
  | .u64 n => .ok [8, n]
  | .float32 bits =>
    if f32IsNan bits then .ok [9, 2 ^ 32 - 1]
    else if f32EqZero bits then .ok [9, 0]
    else .ok [9, bits]
  | .float64 bits =>
    if f64IsNan bits then .ok [10, 2 ^ 64 - 1]
    else if f64EqZero bits then .ok [10, 0]
    else .ok [10, bits]
  | .char c => .ok [11, c.toNat]
  | .string s => .ok (12 :: stringWrites s)
  | .list l =>
    match hashWritesList l with
    | .panicked m => .panicked m
    | .ok w => .ok (13 :: l.length :: w)
  | .record r =>
    match hashWritesFields r with
    | .panicked m => .panicked m
    | .ok w => .ok (14 :: r.length :: w)
  | .tuple t =>
    match hashWritesList t with
    | .panicked m => .panicked m
    | .ok w => .ok (15 :: t.length :: w)
  | .variant name payload =>
    match hashWritesOpt payload with
    | .panicked m => .panicked m
    | .ok w => .ok (16 :: (stringWrites name ++ w))
  | .enum name => .ok (17 :: stringWrites name)
  | .option o =>
    match hashWritesOpt o with
    | .panicked m => .panicked m
    | .ok w => .ok (18 :: w)
  | .result (Except.ok o) =>
    match hashWritesOpt o with
    | .panicked m => .panicked m
    | .ok w => .ok (19 :: 0 :: w)
  | .result (Except.error o) =>
    match hashWritesOpt o with
    | .panicked m => .panicked m
    | .ok w => .ok (19 :: 1 :: w)
  | .flags f => .ok (20 :: f.length :: (f.map stringWrites).flatten)
  | .resource _ => .panicked panicMsg

/-- Word stream of a `Vec<SerializableVal>`'s elements, in order. -/
def SerializableVal.hashWritesList : List SerializableVal → PanicOr (List Nat)
  | [] => .ok []
  | v :: vs =>
    match SerializableVal.hashWrites v with
    | .panicked m => .panicked m
    | .ok w =>
      match hashWritesList vs with
      | .panicked m => .panicked m
      | .ok ws => .ok (w ++ ws)

/-- Word stream of a `Vec<(String, SerializableVal)>`'s entries: each name
then its value, in order. -/
def SerializableVal.hashWritesFields : List (String × SerializableVal) → PanicOr (List Nat)
  | [] => .ok []
  | (k, v) :: vs =>
    match SerializableVal.hashWrites v with
    | .panicked m => .panicked m
    | .ok w =>
      match hashWritesFields vs with
      | .panicked m => .panicked m
      | .ok ws => .ok (stringWrites k ++ w ++ ws)

/-- Word stream of an `Option<Box<SerializableVal>>`: the discriminant and
then the payload, if any. -/
def SerializableVal.hashWritesOpt : Option SerializableVal → PanicOr (List Nat)
  | none => .ok [0]
  | some v =>
    match SerializableVal.hashWrites v with
    | .panicked m => .panicked m
    | .ok w => .ok (1 :: w)
end

mutual
/-- The ideal case-by-case structural mirror stated by the spec for the
conversion (§4.3), written from the spec's words independently of
`from_val` and used as the specification side of the refinement theorem:
scalars, char and string copied by value, sequences element-wise in order,
records field-wise preserving names and order, variant as name plus
optional payload, option and result preserving the populated side, enum
and flags copying names; no mirror exists for a value containing a
resource anywhere. -/
def specMirror : Val → Option SerializableVal
  | Val.bool b => some (.bool b)
  | Val.s8 n => some (.s8 n)
  | Val.u8 n => some (.u8 n)
  | Val.s16 n => some (.s16 n)
  | Val.u16 n => some (.u16 n)
  | Val.s32 n => some (.s32 n)
  | Val.u32 n => some (.u32 n)
  | Val.s64 n => some (.s64 n)
  | Val.u64 n => some (.u64 n)
  | Val.float32 bits => some (.float32 bits)
  | Val.float64 bits => some (.float64 bits)
  | Val.char c => some (.char c)
  | Val.string s => some (.string s)
  | Val.list l => (specMirrorList l).map SerializableVal.list
  | Val.record r => (specMirrorFields r).map SerializableVal.record
  | Val.tuple t => (specMirrorList t).map SerializableVal.tuple
  | Val.variant name payload => (specMirrorOpt payload).map (SerializableVal.variant name)
  | Val.enum name => some (.enum name)
  | Val.option o => (specMirrorOpt o).map SerializableVal.option
  | Val.result (Except.ok o) =>
    (specMirrorOpt o).map (fun x => SerializableVal.result (Except.ok x))
  | Val.result (Except.error o) =>
    (specMirrorOpt o).map (fun x => SerializableVal.result (Except.error x))
  | Val.flags f => some (.flags f)
  | Val.resource _ => none

/-- Element-wise ideal mirror of a sequence, in order. -/
def specMirrorList : List Val → Option (List SerializableVal)
  | [] => some []
  | v :: vs =>
    match specMirror v with
    | none => none
    | some x => (specMirrorList vs).map (fun xs => x :: xs)

/-- Field-wise ideal mirror of a record's fields, preserving names and
order. -/
def specMirrorFields : List (String × Val) → Option (List (String × SerializableVal))
  | [] => some []
  | (k, v) :: vs =>
    match specMirror v with
    | none => none
    | some x => (specMirrorFields vs).map (fun xs => (k, x) :: xs)

/-- Ideal mirror of an optional payload. -/
def specMirrorOpt : Option Val → Option (Option SerializableVal)
  | none => some none
  | some v => (specMirror v).map some
end

mutual
/-- Whether a dynamic value contains the resource case anywhere in its
structure. -/
def Val.containsResource : Val → Bool
  | Val.list l => containsResourceList l
  | Val.record r => containsResourceFields r
  | Val.tuple t => containsResourceList t
  | Val.variant _ payload => containsResourceOpt payload
  | Val.option o => containsResourceOpt o
  | Val.result (Except.ok o) => containsResourceOpt o
  | Val.result (Except.error o) => containsResourceOpt o
  | Val.resource _ => true
  | _ => false

/-- Whether any element of a sequence contains a resource. -/
def Val.containsResourceList : List Val → Bool
  | [] => false
  | v :: vs => Val.containsResource v || containsResourceList vs

/-- Whether any field value contains a resource. -/
def Val.containsResourceFields : List (String × Val) → Bool
  | [] => false
  | (_, v) :: vs => Val.containsResource v || containsResourceFields vs

/-- Whether a present payload contains a resource. -/
def Val.containsResourceOpt : Option Val → Bool
  | none => false
  | some v => Val.containsResource v
end

/-- The outcome `from_val` is proved to produce from the ideal mirror:
the mirrored value when one exists, and the Resource panic otherwise. -/
def mirrorOutcome (m : Option SerializableVal) : PanicOr (Except String SerializableVal) :=
  match m with
  | some s => .ok (.ok s)
  | none => .panicked panicMsg

/-- Sequence version of `mirrorOutcome`. -/
def mirrorOutcomeList (m : Option (List SerializableVal)) :
    PanicOr (Except String (List SerializableVal)) :=
  match m with
  | some s => .ok (.ok s)
  | none => .panicked panicMsg

/-- Field-list version of `mirrorOutcome`. -/
def mirrorOutcomeFields (m : Option (List (String × SerializableVal))) :
    PanicOr (Except String (List (String × SerializableVal))) :=
  match m with
  | some s => .ok (.ok s)
  | none => .panicked panicMsg

/-- Optional-payload version of `mirrorOutcome`. -/
def mirrorOutcomeOpt (m : Option (Option SerializableVal)) :
    PanicOr (Except String (Option SerializableVal)) :=
  match m with
  | some s => .ok (.ok s)
  | none => .panicked panicMsg

mutual
theorem from_val_mirrors : ∀ v : Val,
    SerializableVal.from_val v = mirrorOutcome (specMirror v)
  | Val.bool _ => rfl
  | Val.s8 _ => rfl
  | Val.u8 _ => rfl
  | Val.s16 _ => rfl
  | Val.u16 _ => rfl
  | Val.s32 _ => rfl
  | Val.u32 _ => rfl
  | Val.s64 _ => rfl
  | Val.u64 _ => rfl
  | Val.float32 _ => rfl
  | Val.float64 _ => rfl
  | Val.char _ => rfl
  | Val.string _ => rfl
  | Val.list l => by
    have h := from_val_list_mirrors l
    cases hm : specMirrorList l with
    | none =>
      rw [hm, mirrorOutcomeList] at h
      simp [SerializableVal.from_val, specMirror, h, hm, mirrorOutcome]
    | some xs =>
      rw [hm, mirrorOutcomeList] at h
      simp [SerializableVal.from_val, specMirror, h, hm, mirrorOutcome]
  | Val.record r => by
    have h := from_val_fields_mirrors r
    cases hm : specMirrorFields r with
    | none =>
      rw [hm, mirrorOutcomeFields] at h
      simp [SerializableVal.from_val, specMirror, h, hm, mirrorOutcome]
    | some xs =>
      rw [hm, mirrorOutcomeFields] at h
      simp [SerializableVal.from_val, specMirror, h, hm, mirrorOutcome]
  | Val.tuple t => by
    have h := from_val_list_mirrors t
    cases hm : specMirrorList t with
    | none =>
      rw [hm, mirrorOutcomeList] at h
      simp [SerializableVal.from_val, specMirror, h, hm, mirrorOutcome]
    | some xs =>
      rw [hm, mirrorOutcomeList] at h
      simp [SerializableVal.from_val, specMirror, h, hm, mirrorOutcome]
  | Val.variant name payload => by
    have h := from_val_opt_mirrors payload
    cases hm : specMirrorOpt payload with
    | none =>
      rw [hm, mirrorOutcomeOpt] at h
      simp [SerializableVal.from_val, specMirror, h, hm, mirrorOutcome]
    | some xs =>
      rw [hm, mirrorOutcomeOpt] at h
      simp [SerializableVal.from_val, specMirror, h, hm, mirrorOutcome]
  | Val.enum _ => rfl
  | Val.option o => by
    have h := from_val_opt_mirrors o
    cases hm : specMirrorOpt o with
    | none =>
      rw [hm, mirrorOutcomeOpt] at h
      simp [SerializableVal.from_val, specMirror, h, hm, mirrorOutcome]
    | some xs =>
      rw [hm, mirrorOutcomeOpt] at h
      simp [SerializableVal.from_val, specMirror, h, hm, mirrorOutcome]
  | Val.result (Except.ok o) => by
    have h := from_val_opt_mirrors o
    cases hm : specMirrorOpt o with
    | none =>
      rw [hm, mirrorOutcomeOpt] at h
      simp [SerializableVal.from_val, specMirror, h, hm, mirrorOutcome]
    | some xs =>
      rw [hm, mirrorOutcomeOpt] at h
      simp [SerializableVal.from_val, specMirror, h, hm, mirrorOutcome]
  | Val.result (Except.error o) => by
    have h := from_val_opt_mirrors o
    cases hm : specMirrorOpt o with
    | none =>
      rw [hm, mirrorOutcomeOpt] at h
      simp [SerializableVal.from_val, specMirror, h, hm, mirrorOutcome]
    | some xs =>
      rw [hm, mirrorOutcomeOpt] at h
      simp [SerializableVal.from_val, specMirror, h, hm, mirrorOutcome]
  | Val.flags _ => rfl
  | Val.resource _ => rfl

theorem from_val_list_mirrors : ∀ l : List Val,
    SerializableVal.from_val_list l = mirrorOutcomeList (specMirrorList l)
  | [] => rfl
  | v :: vs => by
    have hv := from_val_mirrors v
    have hvs := from_val_list_mirrors vs
    cases hm : specMirror v with
    | none =>
      rw [hm, mirrorOutcome] at hv
      simp [SerializableVal.from_val_list, specMirrorList, hv, hm, mirrorOutcomeList]
    | some x =>
      rw [hm, mirrorOutcome] at hv
      cases hms : specMirrorList vs with
      | none =>
        rw [hms, mirrorOutcomeList] at hvs
        simp [SerializableVal.from_val_list, specMirrorList, hv, hvs, hm, hms,
          mirrorOutcomeList]
      | some xs =>
        rw [hms, mirrorOutcomeList] at hvs
        simp [SerializableVal.from_val_list, specMirrorList, hv, hvs, hm, hms,
          mirrorOutcomeList]

theorem from_val_fields_mirrors : ∀ r : List (String × Val),
    SerializableVal.from_val_fields r = mirrorOutcomeFields (specMirrorFields r)
  | [] => rfl
  | (k, v) :: vs => by
    have hv := from_val_mirrors v
    have hvs := from_val_fields_mirrors vs
    cases hm : specMirror v with
    | none =>
      rw [hm, mirrorOutcome] at hv
      simp [SerializableVal.from_val_fields, specMirrorFields, hv, hm, mirrorOutcomeFields]
    | some x =>
      rw [hm, mirrorOutcome] at hv
      cases hms : specMirrorFields vs with
      | none =>
        rw [hms, mirrorOutcomeFields] at hvs
        simp [SerializableVal.from_val_fields, specMirrorFields, hv, hvs, hm, hms,
          mirrorOutcomeFields]
      | some xs =>
        rw [hms, mirrorOutcomeFields] at hvs
        simp [SerializableVal.from_val_fields, specMirrorFields, hv, hvs, hm, hms,
          mirrorOutcomeFields]

theorem from_val_opt_mirrors : ∀ o : Option Val,
    SerializableVal.from_val_opt o = mirrorOutcomeOpt (specMirrorOpt o)
  | none => rfl
  | some v => by
    have hv := from_val_mirrors v
    cases hm : specMirror v with
    | none =>
      rw [hm, mirrorOutcome] at hv
      simp [SerializableVal.from_val_opt, specMirrorOpt, hv, hm, mirrorOutcomeOpt]
    | some x =>
      rw [hm, mirrorOutcome] at hv
      simp [SerializableVal.from_val_opt, specMirrorOpt, hv, hm, mirrorOutcomeOpt]
end

theorem optionMapIsSome {α β : Type} (f : α → β) (o : Option α) :
    (o.map f).isSome = o.isSome := by
  cases o <;> rfl

mutual
theorem specMirror_isSome_of_not_contains : ∀ v : Val,
    Val.containsResource v = false → (specMirror v).isSome = true
  | Val.bool _, _ => rfl
  | Val.s8 _, _ => rfl
  | Val.u8 _, _ => rfl
  | Val.s16 _, _ => rfl
  | Val.u16 _, _ => rfl
  | Val.s32 _, _ => rfl
  | Val.u32 _, _ => rfl
  | Val.s64 _, _ => rfl
  | Val.u64 _, _ => rfl
  | Val.float32 _, _ => rfl
  | Val.float64 _, _ => rfl
  | Val.char _, _ => rfl
  | Val.string _, _ => rfl
  | Val.list l, h => by
    have hl := specMirrorList_isSome_of_not_contains l (by simpa [Val.containsResource] using h)
    simp only [specMirror, optionMapIsSome]
    exact hl
  | Val.record r, h => by
    have hr := specMirrorFields_isSome_of_not_contains r
      (by simpa [Val.containsResource] using h)
    simp only [specMirror, optionMapIsSome]
    exact hr
  | Val.tuple t, h => by
    have ht := specMirrorList_isSome_of_not_contains t (by simpa [Val.containsResource] using h)
    simp only [specMirror, optionMapIsSome]
    exact ht
  | Val.variant name payload, h => by
    have hp := specMirrorOpt_isSome_of_not_contains payload
      (by simpa [Val.containsResource] using h)
    simp only [specMirror, optionMapIsSome]
    exact hp
  | Val.enum _, _ => rfl
  | Val.option o, h => by
    have ho := specMirrorOpt_isSome_of_not_contains o (by simpa [Val.containsResource] using h)
    simp only [specMirror, optionMapIsSome]
    exact ho
  | Val.result (Except.ok o), h => by
    have ho := specMirrorOpt_isSome_of_not_contains o (by simpa [Val.containsResource] using h)
    simp only [specMirror, optionMapIsSome]
    exact ho
  | Val.result (Except.error o), h => by
    have ho := specMirrorOpt_isSome_of_not_contains o (by simpa [Val.containsResource] using h)
    simp only [specMirror, optionMapIsSome]
    exact ho
  | Val.flags _, _ => rfl
  | Val.resource _, h => by simp [Val.containsResource] at h

theorem specMirrorList_isSome_of_not_contains : ∀ l : List Val,
    Val.containsResourceList l = false → (specMirrorList l).isSome = true
  | [], _ => rfl
  | v :: vs, h => by
    rw [Val.containsResourceList, Bool.or_eq_false_iff] at h
    have hv := specMirror_isSome_of_not_contains v h.1
    have hvs := specMirrorList_isSome_of_not_contains vs h.2
    cases hm : specMirror v with
    | none => rw [hm] at hv; simp at hv
    | some x =>
      simp only [specMirrorList, hm, optionMapIsSome]
      exact hvs

theorem specMirrorFields_isSome_of_not_contains : ∀ r : List (String × Val),
    Val.containsResourceFields r = false → (specMirrorFields r).isSome = true
  | [], _ => rfl
  | (k, v) :: vs, h => by
    rw [Val.containsResourceFields, Bool.or_eq_false_iff] at h
    have hv := specMirror_isSome_of_not_contains v h.1
    have hvs := specMirrorFields_isSome_of_not_contains vs h.2
    cases hm : specMirror v with
    | none => rw [hm] at hv; simp at hv
    | some x =>
      simp only [specMirrorFields, hm, optionMapIsSome]
      exact hvs

theorem specMirrorOpt_isSome_of_not_contains : ∀ o : Option Val,
    Val.containsResourceOpt o = false → (specMirrorOpt o).isSome = true
  | none, _ => rfl
  | some v, h => by
    have hv := specMirror_isSome_of_not_contains v (by simpa [Val.containsResourceOpt] using h)
    simp only [specMirrorOpt, optionMapIsSome]
    exact hv
end

theorem specMirrorList_length : ∀ (l : List Val) (xs : List SerializableVal),
    specMirrorList l = some xs → xs.length = l.length
  | [], xs, h => by
    simp only [specMirrorList, Option.some.injEq] at h
    subst h
    rfl
  | v :: vs, xs, h => by
    rw [specMirrorList] at h
    cases hm : specMirror v with
    | none => rw [hm] at h; simp at h
    | some x =>
      rw [hm] at h
      cases hms : specMirrorList vs with
      | none => rw [hms] at h; simp at h
      | some ys =>
        rw [hms] at h
        simp at h
        subst h
        simp [specMirrorList_length vs ys hms]

/-- C1: the hash `Chain::add` returns (and stores in the new MetaEvent) is
computed over the event's contents before the `parent` field is
overwritten with the current head's hash; `Event::new` always constructs
events with `parent` absent, so the hash is derived with `parent` treated
as absent, and two events with identical `type_` and `data` appended at
any two (possibly different) chain positions yield the same computed
hash. -/
theorem c1_hash_before_parent_overwrite :
    ∀ (c c' : Chain) (t : String) (d : List Nat),
      (Event.new t d).parent = none ∧
      (c.add (Event.new t d)).2 = (Event.new t d).calculate_hash ∧
      (c.add (Event.new t d)).1.events.getLast? =
        some { hash := (Event.new t d).calculate_hash,
               event := { Event.new t d with parent := c.head } } ∧
      (c.add (Event.new t d)).2 = (c'.add (Event.new t d)).2 := by
  intro c c' t d
  refine ⟨rfl, rfl, ?_, rfl⟩
  rw [add_events]
  exact List.getLast?_concat _

/-- C4: the event sequence is append-only: `add` appends exactly one new
MetaEvent after the unchanged existing entries (no removal, reordering or
in-place mutation), is total, and increases the length by exactly one; the
lookup operations are pure functions of the chain and produce no new
chain state. -/
theorem c4_append_only :
    ∀ (c : Chain) (e : Event),
      (c.add e).1.events =
        c.events ++ [{ hash := e.calculate_hash, event := { e with parent := c.head } }] ∧
      (c.add e).1.events.length = c.events.length + 1 ∧
      (∀ i : Nat, i < c.events.length → (c.add e).1.events[i]? = c.events[i]?) := by
  intro c e
  refine ⟨add_events c e, ?_, ?_⟩
  · rw [add_events]
    simp
  · intro i hi
    rw [add_events]
    exact List.getElem?_append_left hi

theorem c4_append_only_witness :
    0 < (Chain.new.add (Event.new "a" [1])).1.events.length ∧
    ((Chain.new.add (Event.new "a" [1])).1.add (Event.new "b" [2])).1.events[0]? =
      (Chain.new.add (Event.new "a" [1])).1.events[0]? :=
  ⟨by decide,
    (c4_append_only (Chain.new.add (Event.new "a" [1])).1 (Event.new "b" [2])).2.2 0
      (by decide)⟩

/-- C5: serializing a Chain to its wire encoding (the outbound lowering
path) and parsing it back (the inbound lifting path) reproduces a Chain
with the identical event count, identical `type_`, `data` and `parent`
field values, identical stored hashes, and the same entry order. -/
theorem c5_wire_round_trip : ∀ c : Chain, decodeChain (encodeChain c) = some c :=
  decodeChain_encodeChain

/-- C6: the Chain ABI adapter's type-check accepts exactly the boundary's
primitive string interface type, and for every other declared type it
returns a checked failure whose message reports expecting string and
names the found type. -/
theorem c6_typecheck_exactly_string :
    (∀ ty : InterfaceType, Chain.typecheck ty = Except.ok () ↔ ty = InterfaceType.string) ∧
    (∀ ty : InterfaceType, ty ≠ InterfaceType.string →
      Chain.typecheck ty = Except.error ("expected string found " ++ ty.debugName)) := by
  constructor
  · intro ty
    cases ty <;> simp [Chain.typecheck]
  · intro ty h
    cases ty <;> simp_all [Chain.typecheck]

theorem c6_typecheck_exactly_string_witness :
    InterfaceType.u32 ≠ InterfaceType.string ∧
    Chain.typecheck InterfaceType.u32 = Except.error "expected string found U32" :=
  ⟨by decide, by
    rw [c6_typecheck_exactly_string.2 InterfaceType.u32 (by decide)]
    exact congrArg Except.error (by decide)⟩

/-- C9: for every dynamic value of the resource case `from_val` does not
return a normal SerializableVal, and for every SerializableVal of the
Resource variant the structural hash does not return normally: both are
an unconditional panic (process-level abort) rather than a propagated
error value. -/
theorem c9_resource_panics :
    (∀ r : ResourceAny,
      SerializableVal.from_val (Val.resource r) = PanicOr.panicked panicMsg) ∧
    (∀ r : ResourceAny,
      SerializableVal.hashWrites (SerializableVal.resource r) = PanicOr.panicked panicMsg) :=
  ⟨fun _ => rfl, fun _ => rfl⟩

theorem get_parent_some (c : Chain) (h ph : Nat) (m mp : MetaEvent)
    (h1 : c.get_event_by_hash h = some m) (h2 : m.event.parent = some ph)
    (h3 : c.get_event_by_hash ph = some mp) : c.get_parent h = some mp := by
  rw [Chain.get_event_by_hash] at h1
  rw [Chain.get_parent, h1]
  simp [h2, h3]

/-- C2: `head()` of an empty chain is absent; after appending a sequence
of events to an empty chain, `head()` equals the hash returned by the last
`add` call (each `add` returning the event's computed hash);
`get_event_by_hash` is a linear search returning the earliest entry in
append order whose stored hash matches; and when the events' computed
hashes are pairwise distinct, looking up the hash returned for the `i`-th
append finds exactly the `i`-th stored entry, whose event's `type_` and
`data` match what was appended, with `parent` as assigned at append
time. -/
theorem c2_append_lookup :
    Chain.new.head = none ∧
    (∀ (c : Chain) (e : Event), (c.add e).2 = e.calculate_hash) ∧
    (∀ (es : List Event) (e : Event),
      (Chain.new.addAll (es ++ [e])).head = some e.calculate_hash) ∧
    (∀ (c : Chain) (h : Nat) (m : MetaEvent),
      c.get_event_by_hash h = some m →
      m.hash = h ∧ ∃ i : Nat, c.events[i]? = some m ∧
        ∀ j : Nat, j < i → ∀ m2 : MetaEvent, c.events[j]? = some m2 → m2.hash ≠ h) ∧
    (∀ (es : List Event) (i : Nat) (e : Event),
      (es.map Event.calculate_hash).Nodup → es[i]? = some e →
      ∃ m : MetaEvent,
        (Chain.new.addAll es).get_event_by_hash e.calculate_hash = some m ∧
        (Chain.new.addAll es).events[i]? = some m ∧
        m.hash = e.calculate_hash ∧ m.event.type_ = e.type_ ∧ m.event.data = e.data ∧
        m.event.parent = prevHash es none i) := by
  refine ⟨rfl, add_snd, ?_, ?_, ?_⟩
  · intro es e
    rw [addAll_concat, add_head]
  · intro c h m hfind
    obtain ⟨hp, i, hi, hmin⟩ := find?_earliest _ c.events m hfind
    refine ⟨by simpa using hp, i, hi, ?_⟩
    intro j hj m2 hm2
    have := hmin j hj m2 hm2
    simpa using this
  · intro es i e hnd hget
    have hev : (Chain.new.addAll es).events = buildEvents es none := by
      rw [addAll_events]
      rfl
    have hgetm : (Chain.new.addAll es).events[i]? =
        some { hash := e.calculate_hash,
               event := { e with parent := prevHash es none i } } := by
      rw [hev, buildEvents_getElem?, hget]
      rfl
    have hndm : ((Chain.new.addAll es).events.map MetaEvent.hash).Nodup := by
      rw [hev, buildEvents_map_hash]
      exact hnd
    have hfind := find?_nodup_getElem? _ i _ hndm hgetm
    exact ⟨_, hfind, hgetm, rfl, rfl, rfl, rfl⟩

theorem c2_append_lookup_witness :
    (([Event.new "a" [1], Event.new "b" [2]].map Event.calculate_hash).Nodup ∧
      ∃ m : MetaEvent,
        (Chain.new.addAll [Event.new "a" [1], Event.new "b" [2]]).get_event_by_hash
            ((Event.new "b" [2]).calculate_hash) = some m ∧
        (Chain.new.addAll [Event.new "a" [1], Event.new "b" [2]]).events[1]? = some m ∧
        m.hash = (Event.new "b" [2]).calculate_hash ∧ m.event.type_ = "b" ∧
        m.event.data = [2] ∧
        m.event.parent = prevHash [Event.new "a" [1], Event.new "b" [2]] none 1) ∧
    ({ hash := (Event.new "a" [1]).calculate_hash,
       event := Event.new "a" [1] : MetaEvent }).hash =
      (Event.new "a" [1]).calculate_hash :=
  ⟨⟨by decide,
      c2_append_lookup.2.2.2.2 [Event.new "a" [1], Event.new "b" [2]] 1 (Event.new "b" [2])
        (by decide) rfl⟩,
    (c2_append_lookup.2.2.2.1 (Chain.new.addAll [Event.new "a" [1], Event.new "b" [2]])
        ((Event.new "a" [1]).calculate_hash)
        { hash := (Event.new "a" [1]).calculate_hash, event := Event.new "a" [1] }
        (by decide)).1⟩

/-- C3: for a chain built by appending events with pairwise-distinct
computed hashes to an empty chain, `get_parent` of the `(i+1)`-th returned
hash is the entry appended immediately before it, `get_parent` of the
first returned hash is `none`, and whenever the entry lookup for the given
hash, its event's `parent` field, or the lookup of that parent hash comes
up empty, `get_parent` short-circuits to `none`. -/
theorem c3_parent_traversal :
    (∀ (es : List Event) (i : Nat) (e e' : Event),
      (es.map Event.calculate_hash).Nodup → es[i]? = some e → es[i + 1]? = some e' →
      ∃ m : MetaEvent, (Chain.new.addAll es).events[i]? = some m ∧
        (Chain.new.addAll es).get_parent (e'.calculate_hash) = some m) ∧
    (∀ (es : List Event) (e : Event), es[0]? = some e →
      (Chain.new.addAll es).get_parent (e.calculate_hash) = none) ∧
    (∀ (c : Chain) (h : Nat), c.get_event_by_hash h = none → c.get_parent h = none) ∧
    (∀ (c : Chain) (h : Nat) (m : MetaEvent),
      c.get_event_by_hash h = some m → m.event.parent = none → c.get_parent h = none) ∧
    (∀ (c : Chain) (h : Nat) (m : MetaEvent) (p : Nat),
      c.get_event_by_hash h = some m → m.event.parent = some p →
      c.get_event_by_hash p = none → c.get_parent h = none) := by
  refine ⟨?_, ?_, ?_, ?_, ?_⟩
  · intro es i e e' hnd hgi hgi1
    have hev : (Chain.new.addAll es).events = buildEvents es none := by
      rw [addAll_events]
      rfl
    have hndm : ((Chain.new.addAll es).events.map MetaEvent.hash).Nodup := by
      rw [hev, buildEvents_map_hash]
      exact hnd
    have hgetm1 : (Chain.new.addAll es).events[i + 1]? =
        some { hash := e'.calculate_hash,
               event := { e' with parent := prevHash es none (i + 1) } } := by
      rw [hev, buildEvents_getElem?, hgi1]
      rfl
    have hgetm0 : (Chain.new.addAll es).events[i]? =
        some { hash := e.calculate_hash,
               event := { e with parent := prevHash es none i } } := by
      rw [hev, buildEvents_getElem?, hgi]
      rfl
    have hprev : prevHash es none (i + 1) = some e.calculate_hash := by
      simp [prevHash, hgi]
    have hfind1 : (Chain.new.addAll es).get_event_by_hash (e'.calculate_hash) =
        some { hash := e'.calculate_hash,
               event := { e' with parent := prevHash es none (i + 1) } } :=
      find?_nodup_getElem? _ (i + 1) _ hndm hgetm1
    have hfind0 : (Chain.new.addAll es).get_event_by_hash (e.calculate_hash) =
        some { hash := e.calculate_hash,
               event := { e with parent := prevHash es none i } } :=
      find?_nodup_getElem? _ i _ hndm hgetm0
    exact ⟨_, hgetm0, get_parent_some _ _ _ _ _ hfind1 hprev hfind0⟩
  · intro es e hget
    cases es with
    | nil => simp at hget
    | cons e0 es' =>
      have he : e0 = e := by simpa using hget
      have hev : (Chain.new.addAll (e0 :: es')).events = buildEvents (e0 :: es') none := by
        rw [addAll_events]
        rfl
      rw [Chain.get_parent, hev, buildEvents]
      rw [List.find?_cons_of_pos _ (by simp [he])]
      rfl
  · intro c h hnone
    rw [Chain.get_event_by_hash] at hnone
    rw [Chain.get_parent, hnone]
    rfl
  · intro c h m hsome hpar
    rw [Chain.get_event_by_hash] at hsome
    rw [Chain.get_parent, hsome]
    simp [hpar]
  · intro c h m p hsome hpar hnone
    rw [Chain.get_event_by_hash] at hsome
    rw [Chain.get_parent, hsome]
    simp [hpar, hnone]

theorem c3_parent_traversal_witness :
    (∃ m : MetaEvent,
      (Chain.new.addAll [Event.new "a" [1], Event.new "b" [2]]).events[0]? = some m ∧
      (Chain.new.addAll [Event.new "a" [1], Event.new "b" [2]]).get_parent
          ((Event.new "b" [2]).calculate_hash) = some m) ∧
    (Chain.new.addAll [Event.new "a" [1], Event.new "b" [2]]).get_parent
        ((Event.new "a" [1]).calculate_hash) = none ∧
    Chain.new.get_parent 0 = none ∧
    (Chain.new.addAll [Event.new "a" [1]]).get_parent
        ((Event.new "a" [1]).calculate_hash) = none ∧
    (Chain.mk [{ hash := 5, event := { type_ := "t", parent := some 7, data := [] } }]).get_parent
        5 = none :=
  ⟨c3_parent_traversal.1 [Event.new "a" [1], Event.new "b" [2]] 0 (Event.new "a" [1])
      (Event.new "b" [2]) (by decide) rfl rfl,
    c3_parent_traversal.2.1 [Event.new "a" [1], Event.new "b" [2]] (Event.new "a" [1]) rfl,
    c3_parent_traversal.2.2.1 Chain.new 0 rfl,
    c3_parent_traversal.2.2.2.1 (Chain.new.addAll [Event.new "a" [1]])
      ((Event.new "a" [1]).calculate_hash)
      { hash := (Event.new "a" [1]).calculate_hash, event := Event.new "a" [1] }
      (by decide) rfl,
    c3_parent_traversal.2.2.2.2
      (Chain.mk [{ hash := 5, event := { type_ := "t", parent := some 7, data := [] } }]) 5
      { hash := 5, event := { type_ := "t", parent := some 7, data := [] } } 7
      (by decide) rfl (by decide)⟩

/-- C7: the structural hash of Float32/Float64 values canonicalizes
floating-point edge cases: any two NaN bit patterns of the same width hash
identically, positive and negative zero of the same width hash
identically, every other value is hashed by its raw bit pattern, repeated
hashing of the same value is stable, and the hash of Float32 1.5 differs
from the hash of Float32 -1.5. -/
theorem c7_float_hash_canonicalization :
    (∀ a b : Nat, f32IsNan a = true → f32IsNan b = true →
      SerializableVal.hashWrites (SerializableVal.float32 a) =
        SerializableVal.hashWrites (SerializableVal.float32 b)) ∧
    (∀ a b : Nat, f64IsNan a = true → f64IsNan b = true →
      SerializableVal.hashWrites (SerializableVal.float64 a) =
        SerializableVal.hashWrites (SerializableVal.float64 b)) ∧
    SerializableVal.hashWrites (SerializableVal.float32 0) =
      SerializableVal.hashWrites (SerializableVal.float32 (2 ^ 31)) ∧
    SerializableVal.hashWrites (SerializableVal.float64 0) =
      SerializableVal.hashWrites (SerializableVal.float64 (2 ^ 63)) ∧
    (∀ bits : Nat, f32IsNan bits = false → f32EqZero bits = false →
      SerializableVal.hashWrites (SerializableVal.float32 bits) = PanicOr.ok [9, bits]) ∧
    (∀ bits : Nat, f64IsNan bits = false → f64EqZero bits = false →
      SerializableVal.hashWrites (SerializableVal.float64 bits) = PanicOr.ok [10, bits]) ∧
    SerializableVal.hashWrites (SerializableVal.float32 0x3FC00000) =
      SerializableVal.hashWrites (SerializableVal.float32 0x3FC00000) ∧
    SerializableVal.hashWrites (SerializableVal.float32 0x3FC00000) ≠
      SerializableVal.hashWrites (SerializableVal.float32 0xBFC00000) := by
  refine ⟨?_, ?_, by decide, by decide, ?_, ?_, rfl, by decide⟩
  · intro a b ha hb
    simp [SerializableVal.hashWrites, ha, hb]
  · intro a b ha hb
    simp [SerializableVal.hashWrites, ha, hb]
  · intro bits h1 h2
    simp [SerializableVal.hashWrites, h1, h2]
  · intro bits h1 h2
    simp [SerializableVal.hashWrites, h1, h2]

theorem c7_float_hash_canonicalization_witness :
    (f32IsNan 0x7FC00000 = true ∧ f32IsNan 0xFFC00001 = true ∧
      SerializableVal.hashWrites (SerializableVal.float32 0x7FC00000) =
        SerializableVal.hashWrites (SerializableVal.float32 0xFFC00001)) ∧
    (f64IsNan 0x7FF8000000000000 = true ∧ f64IsNan 0xFFF0000000000001 = true ∧
      SerializableVal.hashWrites (SerializableVal.float64 0x7FF8000000000000) =
        SerializableVal.hashWrites (SerializableVal.float64 0xFFF0000000000001)) ∧
    (f32IsNan 0x3FC00000 = false ∧ f32EqZero 0x3FC00000 = false ∧
      SerializableVal.hashWrites (SerializableVal.float32 0x3FC00000) =
        PanicOr.ok [9, 0x3FC00000]) ∧
    (f64IsNan 0x3FF8000000000000 = false ∧ f64EqZero 0x3FF8000000000000 = false ∧
      SerializableVal.hashWrites (SerializableVal.float64 0x3FF8000000000000) =
        PanicOr.ok [10, 0x3FF8000000000000]) :=
  ⟨⟨by decide, by decide,
      c7_float_hash_canonicalization.1 0x7FC00000 0xFFC00001 (by decide) (by decide)⟩,
    ⟨by decide, by decide,
      c7_float_hash_canonicalization.2.1 0x7FF8000000000000 0xFFF0000000000001
        (by decide) (by decide)⟩,
    ⟨by decide, by decide,
      c7_float_hash_canonicalization.2.2.2.2.1 0x3FC00000 (by decide) (by decide)⟩,
    ⟨by decide, by decide,
      c7_float_hash_canonicalization.2.2.2.2.2.1 0x3FF8000000000000 (by decide) (by decide)⟩⟩

/-- C8: `from_val` recursively maps every non-resource dynamic-value case
one-to-one onto its mirror SerializableVal variant — scalars, char and
string by value copy, lists and tuples element-wise in order, records
field-wise preserving field order and names, variant as case name plus
optionally converted payload, option and result converting the populated
payload and preserving the populated side, enum and flags copying names —
as captured by refinement against the spec-level structural mirror; the
first element failure aborts the whole element-wise conversion fail-fast
with no partial result; and `from_vals` applies the conversion
element-wise over a sequence with the same semantics. -/
theorem c8_recursive_conversion_fidelity :
    (∀ (v : Val) (s : SerializableVal), specMirror v = some s →
      SerializableVal.from_val v = PanicOr.ok (Except.ok s)) ∧
    (∀ (v : Val) (vs : List Val) (m : String),
      SerializableVal.from_val v = PanicOr.panicked m →
      SerializableVal.from_val_list (v :: vs) = PanicOr.panicked m) ∧
    (∀ (v : Val) (vs : List Val) (e : String),
      SerializableVal.from_val v = PanicOr.ok (Except.error e) →
      SerializableVal.from_val_list (v :: vs) = PanicOr.ok (Except.error e)) ∧
    (∀ (vs : List Val) (xs : List SerializableVal), specMirrorList vs = some xs →
      SerializableVal.from_vals vs = PanicOr.ok (Except.ok xs)) := by
  refine ⟨?_, ?_, ?_, ?_⟩
  · intro v s h
    have hm := from_val_mirrors v
    rw [h] at hm
    exact hm
  · intro v vs m h
    rw [SerializableVal.from_val_list, h]
  · intro v vs e h
    rw [SerializableVal.from_val_list, h]
  · intro vs xs h
    have hm := from_val_list_mirrors vs
    rw [h] at hm
    exact hm

theorem c8_recursive_conversion_fidelity_witness :
    (specMirror
        (Val.record [("f", Val.list [Val.tuple [Val.option (some (Val.bool true))]])]) =
      some (SerializableVal.record
        [("f", SerializableVal.list
          [SerializableVal.tuple [SerializableVal.option (some (SerializableVal.bool true))]])]) ∧
      SerializableVal.from_val
          (Val.record [("f", Val.list [Val.tuple [Val.option (some (Val.bool true))]])]) =
        PanicOr.ok (Except.ok (SerializableVal.record
          [("f", SerializableVal.list
            [SerializableVal.tuple
              [SerializableVal.option (some (SerializableVal.bool true))]])]))) ∧
    (SerializableVal.from_val (Val.resource { rep := 0 }) = PanicOr.panicked panicMsg ∧
      SerializableVal.from_val_list [Val.resource { rep := 0 }, Val.bool true] =
        PanicOr.panicked panicMsg) ∧
    (specMirrorList [Val.bool true, Val.u8 3] =
        some [SerializableVal.bool true, SerializableVal.u8 3] ∧
      SerializableVal.from_vals [Val.bool true, Val.u8 3] =
        PanicOr.ok (Except.ok [SerializableVal.bool true, SerializableVal.u8 3])) :=
  ⟨⟨rfl,
      c8_recursive_conversion_fidelity.1
        (Val.record [("f", Val.list [Val.tuple [Val.option (some (Val.bool true))]])])
        (SerializableVal.record
          [("f", SerializableVal.list
            [SerializableVal.tuple [SerializableVal.option (some (SerializableVal.bool true))]])])
        rfl⟩,
    ⟨rfl,
      c8_recursive_conversion_fidelity.2.1 (Val.resource { rep := 0 }) [Val.bool true]
        panicMsg rfl⟩,
    ⟨rfl,
      c8_recursive_conversion_fidelity.2.2.2 [Val.bool true, Val.u8 3]
        [SerializableVal.bool true, SerializableVal.u8 3] rfl⟩⟩

/-- C10: the Err branch of `from_val`'s result type is unreachable: every
conversion outcome is either the Resource panic or a normal Ok value
(never a propagated Err), every dynamic value containing no resource case
anywhere converts to an Ok value, and `from_vals` on a sequence with no
resource anywhere returns Ok of a sequence of the same length. -/
theorem c10_err_branch_unreachable :
    (∀ v : Val, (∃ m, SerializableVal.from_val v = PanicOr.panicked m) ∨
      (∃ s, SerializableVal.from_val v = PanicOr.ok (Except.ok s))) ∧
    (∀ v : Val, Val.containsResource v = false →
      ∃ s, SerializableVal.from_val v = PanicOr.ok (Except.ok s)) ∧
    (∀ vs : List Val, Val.containsResourceList vs = false →
      ∃ xs, SerializableVal.from_vals vs = PanicOr.ok (Except.ok xs) ∧
        xs.length = vs.length) := by
  refine ⟨?_, ?_, ?_⟩
  · intro v
    have hm := from_val_mirrors v
    cases h : specMirror v with
    | none =>
      rw [h] at hm
      exact Or.inl ⟨panicMsg, hm⟩
    | some s =>
      rw [h] at hm
      exact Or.inr ⟨s, hm⟩
  · intro v h
    obtain ⟨s, hs⟩ := Option.isSome_iff_exists.mp (specMirror_isSome_of_not_contains v h)
    have hm := from_val_mirrors v
    rw [hs] at hm
    exact ⟨s, hm⟩
  · intro vs h
    obtain ⟨xs, hs⟩ :=
      Option.isSome_iff_exists.mp (specMirrorList_isSome_of_not_contains vs h)
    have hm := from_val_list_mirrors vs
    rw [hs] at hm
    exact ⟨xs, hm, specMirrorList_length vs xs hs⟩

theorem c10_err_branch_unreachable_witness :
    (Val.containsResource (Val.list [Val.bool true, Val.string "x"]) = false ∧
      ∃ s, SerializableVal.from_val (Val.list [Val.bool true, Val.string "x"]) =
        PanicOr.ok (Except.ok s)) ∧
    (Val.containsResourceList [Val.bool true, Val.string "x"] = false ∧
      ∃ xs, SerializableVal.from_vals [Val.bool true, Val.string "x"] =
        PanicOr.ok (Except.ok xs) ∧ xs.length = [Val.bool true, Val.string "x"].length) :=
  ⟨⟨rfl, c10_err_branch_unreachable.2.1 (Val.list [Val.bool true, Val.string "x"]) rfl⟩,
    ⟨rfl, c10_err_branch_unreachable.2.2 [Val.bool true, Val.string "x"] rfl⟩⟩
